import Mathlib

/-!
Verification of the COREv2 panel-assembly and validation-guard scripts.

The development shallowly embeds the Python sources:
* `test_integer_validation.py` — the validation-guard arithmetic
  (`round(max(1, nu))` for t-copula degrees of freedom, and
  `floor(min(1000, size))` for the sample count `nSim`);
* `combine_regime_labels.py` — assembly of per-product regime-label files
  into one panel over a fixed product universe;
* `combine_returns_tables.py` — assembly of per-product returns files,
  including the structured-record field-selection procedure and the
  per-product diagnostics.

Numeric cells are modelled as `EValue` (a rational or NaN); numpy arrays as
`NpArray` (one- or two-dimensional, rows in row-major order); MAT files as
association lists from variable names to arrays, in insertion order; a
per-product raw source as `Source` (absent file, load failure, or a loaded
file). Python dictionaries keyed by product names are association lists
built in universe order.
-/

namespace COREv2

/-- A numeric cell of a loaded series: either a rational value or NaN. -/
inductive EValue where
  | num (q : ℚ)
  | nan
  deriving DecidableEq, Repr

/-- Embeds `np.isnan` on a single cell. -/
def EValue.isNaN : EValue → Bool
  | .nan => true
  | .num _ => false

/-- A numpy array as loaded from a MAT file: one-dimensional values, or a
two-dimensional array given by its list of rows (row-major). -/
inductive NpArray where
  | oneD (vals : List EValue)
  | twoD (rows : List (List EValue))
  deriving DecidableEq, Repr

/-- `shape[0]` of a two-dimensional array: the number of rows. -/
def npShape0 (rows : List (List EValue)) : ℕ := rows.length

/-- `shape[1]` of a two-dimensional array: the common row length (read off
the first row; `npRect` below states rectangularity). -/
def npShape1 (rows : List (List EValue)) : ℕ := (rows.headD []).length

/-- A genuine numpy 2-D array is rectangular: every row has length `shape[1]`. -/
def npRect (rows : List (List EValue)) : Prop :=
  ∀ r ∈ rows, r.length = npShape1 rows

/-- Embeds `.flatten()`: row-major read-out of the values. -/
def NpArray.flatten : NpArray → List EValue
  | .oneD vals => vals
  | .twoD rows => rows.flatten

/-- Embeds Python `len(...)` on an array: the length of a 1-D array, the
number of rows of a 2-D array. -/
def NpArray.pyLen : NpArray → ℕ
  | .oneD vals => vals.length
  | .twoD rows => rows.length

/-- The state of one product's raw source file: absent, present but failing
to load (the `except` branch), or successfully loaded with contents `f`. -/
inductive Source (α : Type) where
  | missing
  | loadError
  | ok (f : α)
  deriving DecidableEq, Repr

/-- First-match association-list lookup, the model of indexing a Python
dict whose keys are unique. -/
def alook {β : Type} : List (String × β) → String → Option β
  | [], _ => none
  | (k, v) :: rest, key => if k = key then some v else alook rest key

/-! ## Validation Guard (`test_integer_validation.py`)

`df_int = round(max(1, nu))` and `nSim = math.floor(min(1000, size))`,
with sampling gated on `nSim >= 2`. Python `round` rounds halves to the
nearest even integer. -/

/-- Embeds Python `round` on an exact rational: nearest integer, ties to
even. -/
def pyRound (q : ℚ) : ℤ :=
  if q - ⌊q⌋ < 1/2 then ⌊q⌋
  else if 1/2 < q - ⌊q⌋ then ⌊q⌋ + 1
  else if Even ⌊q⌋ then ⌊q⌋ else ⌊q⌋ + 1

/-- Embeds `df_int = round(max(1, nu))` from `test_integer_validation.py`
(the validation-guard coercion of a raw tail-weight estimate). -/
def df_int (nu : ℚ) : ℤ := pyRound (max 1 nu)

/-- Embeds `nSim = math.floor(min(1000, size))` for a candidate batch
size `size`. -/
def nSim (size : ℕ) : ℤ := ⌊min (1000 : ℚ) (size : ℚ)⌋

/-- Embeds the gate `if nSim >= 2` that decides whether the correlated
copula draw proceeds for this batch. -/
def proceedSampling (size : ℕ) : Bool := decide (2 ≤ nSim size)

/-! ## Panel assembly -/

/-- The fixed product universe hardcoded in both combine scripts. -/
def products : List String :=
  ["nodalPrices", "hubPrices", "nodalGeneration", "regup", "regdown",
   "nonspin", "hourlyHubForecasts", "hourlyNodalForecasts"]

/-- A loaded regime-label MAT file: variables keyed by name, in key order,
with unique keys (Python dict semantics). -/
abbrev MatFile := List (String × NpArray)

/-- Embeds Python `s.startswith(pre)` on strings. -/
def strStarts (s pre : String) : Bool := pre.data.isPrefixOf s.data

/-- Embeds `main_vars = [key for key in data.keys() if not key.startswith('__')]`
from `combine_regime_labels.py`. -/
def mainVars (f : MatFile) : List String :=
  (f.map Prod.fst).filter (fun k => !(strStarts k "__"))

/-- The first non-metadata variable of the file together with its data:
`main_vars[0]` and `data[main_vars[0]]` for a dict with unique keys. -/
def firstMainEntry (f : MatFile) : Option (String × NpArray) :=
  (f.filter (fun e => !(strStarts e.1 "__"))).head?

/-- Embeds the conditional flatten of `combine_regime_labels.py`:
`if regime_data.ndim == 2 and (regime_data.shape[0] == 1 or
regime_data.shape[1] == 1): regime_data = regime_data.flatten()`. -/
def flattenIfDegenerate : NpArray → NpArray
  | .oneD vals => .oneD vals
  | .twoD rows =>
      if npShape0 rows = 1 ∨ npShape1 rows = 1 then .oneD rows.flatten
      else .twoD rows

/-- Per-product extraction in `combine_regime_labels`: a missing file or a
load error yields `np.array([])`; otherwise the first non-metadata
variable's data, flattened when it is a degenerate 2-D array; a file with
no non-metadata variable also yields the empty array. -/
def extractRegime : Source MatFile → NpArray
  | .missing => .oneD []
  | .loadError => .oneD []
  | .ok f =>
      match firstMainEntry f with
      | none => .oneD []
      | some (_, d) => flattenIfDegenerate d

/-- Embeds the accumulation loop of `combine_regime_labels`: one entry per
product of the universe, in universe order. -/
def combine_regime_labels (src : String → Source MatFile) :
    List (String × NpArray) :=
  products.map (fun p => (p, extractRegime (src p)))

/-- One variable of a returns MAT file: either a structured array with
named fields (each field paired with its column of values, fields in
declared order) or a plain numeric array. -/
inductive RetVar where
  | structured (fields : List (String × List EValue))
  | simple (a : NpArray)
  deriving DecidableEq, Repr

/-- A loaded returns MAT file: variables keyed by name, unique keys. -/
abbrev RetFile := List (String × RetVar)

/-- Substring test on character lists, by scanning each suffix. -/
def hasInfixChars (needle : List Char) : List Char → Bool
  | [] => needle.isEmpty
  | c :: rest =>
      if needle.isPrefixOf (c :: rest) then true else hasInfixChars needle rest

/-- Embeds Python `needle in hay` on strings: substring containment. -/
def strContains (hay needle : String) : Bool := hasInfixChars needle.data hay.data

/-- The test of the primary field-selection loop:
`product in field or (field != 'Timestamp' and field != 'Time')`. -/
def primaryPred (product f : String) : Bool :=
  strContains f product || (decide (f ≠ "Timestamp") && decide (f ≠ "Time"))

/-- Embeds the primary field-selection loop of `combine_returns_tables.py`:
the first field passing `primaryPred`, if any. -/
def primaryScan (product : String) : List String → Option String
  | [] => none
  | f :: rest => if primaryPred product f then some f else primaryScan product rest

/-- ASCII lowercasing of one character, as Python `.lower()` acts on the
ASCII field names of these files. -/
def charLower (c : Char) : Char :=
  if 65 ≤ c.toNat && c.toNat ≤ 90 then Char.ofNat (c.toNat + 32) else c

/-- Embeds Python `f.lower()` on ASCII field names. -/
def strLower (s : String) : String := ⟨s.data.map charLower⟩

/-- Embeds the negation of `'time' not in f.lower() and 'date' not in
f.lower()`: true when the lowercased field name mentions time or date. -/
def lowerHasTimeOrDate (f : String) : Bool :=
  strContains (strLower f) "time" || strContains (strLower f) "date"

/-- Embeds the fallback of the selection procedure: the first field whose
lowercased name has no time/date, else `field_names[0]`. -/
def fallbackSelect (fields : List String) : Option String :=
  match fields.filter (fun f => !(lowerHasTimeOrDate f)) with
  | g :: _ => some g
  | [] => fields.head?

/-- The whole field-selection procedure of `combine_returns_tables.py`,
including the Python truthiness of `if data_field:` (an empty selected
name falls through to the fallback, exactly as `None` does). -/
def selectField (product : String) (fields : List String) : Option String :=
  match primaryScan product fields with
  | some f => if f = "" then fallbackSelect fields else some f
  | none => fallbackSelect fields

/-- Column lookup `returns_data[data_field]` in a structured array. -/
def fieldData (fields : List (String × List EValue)) (f : String) : List EValue :=
  (alook fields f).getD []

/-- Extraction of one loaded `returnsTable` variable: a structured array
goes through field selection and the selected column is stored (columns
are modelled already flattened); a plain array is flattened. -/
def extractVar (product : String) : RetVar → List EValue
  | .simple a => a.flatten
  | .structured fields =>
      match selectField product (fields.map Prod.fst) with
      | some f => fieldData fields f
      | none => []

/-- Per-product extraction in `combine_returns_tables`: a missing file or
a load error yields `np.array([])`; so does a file without a
`returnsTable` variable (that name never starts with `__`, so the
`main_vars` membership test is plain key membership); otherwise the
extracted column. -/
def extractReturns (product : String) : Source RetFile → List EValue
  | .missing => []
  | .loadError => []
  | .ok f =>
      match alook f "returnsTable" with
      | none => []
      | some v => extractVar product v

/-- Embeds the accumulation loop of `combine_returns_tables`: one entry
per product of the universe, in universe order. -/
def combine_returns_tables (src : String → Source RetFile) :
    List (String × List EValue) :=
  products.map (fun p => (p, extractReturns p (src p)))

/-- Count of non-NaN entries, `np.sum(~np.isnan(s))`. -/
def countValid (s : List EValue) : ℕ := (s.filter (fun v => !(v.isNaN))).length

/-- One product's diagnostic line: present iff the stored series exists
and is non-empty, then reporting `(n_returns, n_valid)`. -/
def diagOf (s : Option (List EValue)) : Option (ℕ × ℕ) :=
  match s with
  | some v => if 0 < v.length then some (v.length, countValid v) else none
  | none => none

/-- Embeds the verification loop of `combine_returns_tables`: for each
product of the universe in order, the reported `(n_returns, n_valid)`
line when the product has data. -/
def returnsDiagnostics (combined : List (String × List EValue)) :
    List (String × ℕ × ℕ) :=
  products.filterMap (fun p => (diagOf (alook combined p)).map (fun d => (p, d)))

/-- Field selection as the spec words it, for comparison with the code's
procedure: precedence (a) a field whose name contains the product name,
(b) the first field whose name has no timestamp/date pattern, (c) the
first field in declared order. -/
def specSelectField (product : String) (fields : List String) : Option String :=
  match fields.filter (fun f => strContains f product) with
  | f :: _ => some f
  | [] =>
      match fields.filter (fun f => !(lowerHasTimeOrDate f)) with
      | f :: _ => some f
      | [] => fields.head?

/-- A concrete regime-label MAT file used by witnesses: a metadata entry,
then the main variable (a degenerate 2-D array), then an extra variable. -/
def wRegimeFile : MatFile :=
  [("__header__", NpArray.oneD []),
   ("regimeLabels", NpArray.twoD [[EValue.num 1, EValue.num 2]]),
   ("extra", NpArray.oneD [EValue.nan])]

/-- A concrete returns MAT file used by witnesses: one `returnsTable`
variable holding a structured array with a timestamp field and a data
field containing one NaN. -/
def wRetFile : RetFile :=
  [("returnsTable", RetVar.structured
      [("Timestamp", [EValue.num 0, EValue.num 1]),
       ("regup", [EValue.num 2, EValue.nan])])]

/-! ## Generic lemmas about the association-list panels -/

theorem alook_map_self {β : Type} (g : String → β) (ps : List String) (p : String)
    (hp : p ∈ ps) : alook (ps.map (fun q => (q, g q))) p = some (g p) := by
  induction ps with
  | nil => cases hp
  | cons q rest ih =>
    by_cases hq : q = p
    · subst hq; simp [alook]
    · rcases List.mem_cons.mp hp with h | h
      · exact absurd h.symm hq
      · simpa [alook, hq] using ih h

theorem alook_filterMap_none {γ : Type} (F : String → Option γ) (p : String)
    (hF : F p = none) (ps : List String) :
    alook (ps.filterMap (fun q => (F q).map (fun d => (q, d)))) p = none := by
  induction ps with
  | nil => rfl
  | cons q rest ih =>
    cases hq : F q with
    | none => simpa [List.filterMap_cons, hq] using ih
    | some d =>
      have hqp : q ≠ p := by rintro rfl; rw [hq] at hF; cases hF
      simpa [List.filterMap_cons, hq, alook, hqp] using ih

theorem alook_filterMap_self {γ : Type} (F : String → Option γ) (ps : List String)
    (p : String) (hp : p ∈ ps) :
    alook (ps.filterMap (fun q => (F q).map (fun d => (q, d)))) p = F p := by
  induction ps with
  | nil => cases hp
  | cons q rest ih =>
    by_cases hqp : q = p
    · subst hqp
      cases hq : F q with
      | none => simpa [List.filterMap_cons, hq] using alook_filterMap_none F q hq rest
      | some d => simp [List.filterMap_cons, hq, alook]
    · have hp2 : p ∈ rest := by
        rcases List.mem_cons.mp hp with h | h
        · exact absurd h.symm hqp
        · exact h
      cases hq : F q with
      | none => simpa [List.filterMap_cons, hq] using ih hp2
      | some d => simpa [List.filterMap_cons, hq, alook, hqp] using ih hp2

theorem alook_of_mem_keys {β : Type} (l : List (String × β)) (k : String)
    (hk : k ∈ l.map Prod.fst) : ∃ v, alook l k = some v := by
  induction l with
  | nil => simp at hk
  | cons e rest ih =>
    obtain ⟨k0, v0⟩ := e
    by_cases h : k0 = k
    · exact ⟨v0, by simp [alook, h]⟩
    · simp only [List.map_cons, List.mem_cons] at hk
      rcases hk with h1 | h1
      · exact absurd h1.symm h
      · obtain ⟨v, hv⟩ := ih h1
        exact ⟨v, by simp [alook, h, hv]⟩

/-! ## Lemmas about the field-selection procedure -/

theorem primaryScan_eq_find (product : String) (fs : List String) :
    primaryScan product fs = fs.find? (primaryPred product) := by
  induction fs with
  | nil => rfl
  | cons f rest ih =>
    cases h : primaryPred product f with
    | true => simp [primaryScan, h]
    | false => simpa [primaryScan, h] using ih

theorem primaryScan_mem {product f : String} {fs : List String}
    (h : primaryScan product fs = some f) : f ∈ fs := by
  rw [primaryScan_eq_find] at h
  exact List.mem_of_find?_eq_some h

theorem fallbackSelect_isSome {fs : List String} (h : fs ≠ []) :
    ∃ f, fallbackSelect fs = some f ∧ f ∈ fs := by
  unfold fallbackSelect
  cases hfilt : fs.filter (fun f => !(lowerHasTimeOrDate f)) with
  | cons g t =>
    refine ⟨g, rfl, ?_⟩
    have : g ∈ fs.filter (fun f => !(lowerHasTimeOrDate f)) := by
      rw [hfilt]; exact List.mem_cons_self g t
    exact List.mem_of_mem_filter this
  | nil =>
    cases fs with
    | nil => exact absurd rfl h
    | cons a t => exact ⟨a, rfl, List.mem_cons_self a t⟩

theorem selectField_mem {product : String} {fs : List String} (h : fs ≠ []) :
    ∃ f, selectField product fs = some f ∧ f ∈ fs := by
  unfold selectField
  cases hscan : primaryScan product fs with
  | none => exact fallbackSelect_isSome h
  | some g =>
    by_cases hg : g = ""
    · simp only [hg, if_pos rfl]
      exact fallbackSelect_isSome h
    · exact ⟨g, by simp [hg], primaryScan_mem hscan⟩

theorem pyRound_ge_one {q : ℚ} (hq : 1 ≤ q) : 1 ≤ pyRound q := by
  have hf : (1 : ℤ) ≤ ⌊q⌋ := by
    rw [Int.le_floor]; exact_mod_cast hq
  unfold pyRound
  split
  · exact hf
  · split
    · omega
    · split
      · exact hf
      · omega

/-- Claim C1: for every raw tail-weight estimate, the stored
degrees-of-freedom value equals `round(max(1, x))` (an integer by type)
and is at least 1. -/
theorem df_int_spec (x : ℚ) : df_int x = pyRound (max 1 x) ∧ 1 ≤ df_int x := by
  refine ⟨rfl, ?_⟩
  exact pyRound_ge_one (le_max_left 1 x)

/-- Claim C2: for every candidate batch size `n ≥ 0` with cap 1000, the
derived sample count equals `floor(min(1000, n))`, which is exactly
`min 1000 n`, and the correlated draw proceeds iff that count is ≥ 2. -/
theorem nSim_spec (n : ℕ) :
    nSim n = ((min 1000 n : ℕ) : ℤ) ∧ (proceedSampling n = true ↔ 2 ≤ nSim n) := by
  constructor
  · unfold nSim
    rw [show ((1000 : ℚ)) = ((1000 : ℕ) : ℚ) from by norm_num, ← Nat.cast_min,
      Int.floor_natCast]
  · unfold proceedSampling
    exact decide_eq_true_iff

theorem combine_returns_tables_alook (src : String → Source RetFile) (p : String)
    (hp : p ∈ products) :
    alook (combine_returns_tables src) p = some (extractReturns p (src p)) :=
  alook_map_self (fun q => extractReturns q (src q)) products p hp

theorem combine_regime_labels_alook (src : String → Source MatFile) (p : String)
    (hp : p ∈ products) :
    alook (combine_regime_labels src) p = some (extractRegime (src p)) :=
  alook_map_self (fun q => extractRegime (src q)) products p hp

theorem mainVars_eq_map_filter (f : MatFile) :
    mainVars f = (f.filter (fun e => !(strStarts e.1 "__"))).map Prod.fst := by
  induction f with
  | nil => rfl
  | cons e rest ih =>
    obtain ⟨k, v⟩ := e
    unfold mainVars at ih ⊢
    cases hk : (!(strStarts k "__")) with
    | true => simp [List.filter_cons, hk, ih]
    | false => simp [List.filter_cons, hk, ih]

theorem filter_entries_nil {f : MatFile} (h : mainVars f = []) :
    f.filter (fun e => !(strStarts e.1 "__")) = [] := by
  rw [mainVars_eq_map_filter] at h
  exact List.map_eq_nil_iff.mp h

theorem extractRegime_ok (f : MatFile) :
    extractRegime (Source.ok f) =
      match firstMainEntry f with
      | none => NpArray.oneD []
      | some (_, d) => flattenIfDegenerate d := rfl

theorem extractRegime_ok_first {f : MatFile} {k : String} {d : NpArray}
    {rest : MatFile} (h : f.filter (fun e => !(strStarts e.1 "__")) = (k, d) :: rest) :
    extractRegime (Source.ok f) = flattenIfDegenerate d := by
  rw [extractRegime_ok]
  unfold firstMainEntry
  rw [h]
  rfl

theorem extractRegime_ok_nil {f : MatFile} (h : mainVars f = []) :
    extractRegime (Source.ok f) = NpArray.oneD [] := by
  rw [extractRegime_ok]
  unfold firstMainEntry
  rw [filter_entries_nil h]
  rfl

theorem flattenIfDegenerate_twoD (rows : List (List EValue)) :
    flattenIfDegenerate (NpArray.twoD rows) =
      if npShape0 rows = 1 ∨ npShape1 rows = 1 then NpArray.oneD rows.flatten
      else NpArray.twoD rows := rfl

/-! ## The claims -/

/-- Claim C3: whatever the state of every raw source — present, absent,
unreadable, or without a data variable — both assembled panels contain
every product of the universe as a key, with value the per-product
extraction (the loaded series or the explicitly empty sequence); a key is
never missing. -/
theorem combine_covers_universe
    (srcR : String → Source RetFile) (srcL : String → Source MatFile)
    (p : String) (hp : p ∈ products) :
    alook (combine_returns_tables srcR) p = some (extractReturns p (srcR p)) ∧
    alook (combine_regime_labels srcL) p = some (extractRegime (srcL p)) :=
  ⟨combine_returns_tables_alook srcR p hp, combine_regime_labels_alook srcL p hp⟩

theorem combine_covers_universe_witness :
    alook (combine_returns_tables (fun _ => Source.missing)) "regup" = some [] ∧
    alook (combine_regime_labels (fun _ => Source.missing)) "regup" =
      some (NpArray.oneD []) :=
  combine_covers_universe (fun _ => Source.missing) (fun _ => Source.missing)
    "regup" (by decide)

/-- Claim C6: a product whose source file is absent or fails to load is
assigned the explicitly empty sequence; assembly never aborts (the
functions are total and always return their panel), and every other
product's entry depends only on that product's own source, so it is
unaffected. -/
theorem combine_degrades_per_product
    (srcR : String → Source RetFile) (srcL : String → Source MatFile)
    (p : String) (hp : p ∈ products) :
    ((srcR p = Source.missing ∨ srcR p = Source.loadError) →
      alook (combine_returns_tables srcR) p = some []) ∧
    ((srcL p = Source.missing ∨ srcL p = Source.loadError) →
      alook (combine_regime_labels srcL) p = some (NpArray.oneD [])) ∧
    (∀ srcR2 : String → Source RetFile, (∀ q, q ≠ p → srcR2 q = srcR q) →
      ∀ q, q ∈ products → q ≠ p →
        alook (combine_returns_tables srcR2) q =
          alook (combine_returns_tables srcR) q) ∧
    (∀ srcL2 : String → Source MatFile, (∀ q, q ≠ p → srcL2 q = srcL q) →
      ∀ q, q ∈ products → q ≠ p →
        alook (combine_regime_labels srcL2) q =
          alook (combine_regime_labels srcL) q) := by
  refine ⟨?_, ?_, ?_, ?_⟩
  · rintro (h | h) <;> (rw [combine_returns_tables_alook srcR p hp, h]; rfl)
  · rintro (h | h) <;> (rw [combine_regime_labels_alook srcL p hp, h]; rfl)
  · intro src2 hagree q hq hqp
    rw [combine_returns_tables_alook src2 q hq,
      combine_returns_tables_alook srcR q hq, hagree q hqp]
  · intro src2 hagree q hq hqp
    rw [combine_regime_labels_alook src2 q hq,
      combine_regime_labels_alook srcL q hq, hagree q hqp]

theorem combine_degrades_per_product_witness :
    alook (combine_returns_tables (fun _ => Source.loadError)) "hubPrices" =
      some [] := by
  have h := combine_degrades_per_product (fun _ => Source.loadError)
    (fun _ => Source.loadError) "hubPrices" (by decide)
  exact h.1 (Or.inr rfl)

/-- Claim C10: for a loaded regime-label file the assembler stores exactly
the data of the first variable whose name does not start with `__`, in
the file's key order, ignoring every other variable (the data flattened
when it is a degenerate 2-D array); when no such variable exists the
product receives the empty sequence. -/
theorem regime_first_main_var
    (src : String → Source MatFile) (p : String) (f : MatFile)
    (hp : p ∈ products) (hf : src p = Source.ok f) :
    (∀ k d rest, f.filter (fun e => !(strStarts e.1 "__")) = (k, d) :: rest →
      alook (combine_regime_labels src) p = some (flattenIfDegenerate d)) ∧
    (mainVars f = [] →
      alook (combine_regime_labels src) p = some (NpArray.oneD [])) := by
  constructor
  · intro k d rest hfirst
    rw [combine_regime_labels_alook src p hp, hf, extractRegime_ok_first hfirst]
  · intro hmv
    rw [combine_regime_labels_alook src p hp, hf, extractRegime_ok_nil hmv]

theorem regime_first_main_var_witness :
    alook (combine_regime_labels (fun _ => Source.ok wRegimeFile)) "nodalPrices" =
      some (NpArray.oneD [EValue.num 1, EValue.num 2]) := by
  have h := regime_first_main_var (fun _ => Source.ok wRegimeFile) "nodalPrices"
    wRegimeFile (by decide) rfl
  have h2 := h.1 "regimeLabels" (NpArray.twoD [[EValue.num 1, EValue.num 2]])
    [("extra", NpArray.oneD [EValue.nan])] rfl
  exact h2

/-- Claim C5: a two-dimensional input with one dimension of size 1 is
stored flattened to one dimension; the flattened series is exactly the
row-major value list of the input and, for a rectangular array, its
length is the full element count — flattening alters neither the values
nor their count. -/
theorem flatten_degenerate_preserves (rows : List (List EValue))
    (h : npShape0 rows = 1 ∨ npShape1 rows = 1) :
    flattenIfDegenerate (NpArray.twoD rows) = NpArray.oneD rows.flatten ∧
    NpArray.flatten (NpArray.twoD rows) = rows.flatten ∧
    (npRect rows → rows.flatten.length = npShape0 rows * npShape1 rows) := by
  refine ⟨?_, rfl, ?_⟩
  · rw [flattenIfDegenerate_twoD, if_pos h]
  · intro hrect
    rw [List.length_flatten]
    have hmap : rows.map List.length = List.replicate rows.length (npShape1 rows) := by
      apply List.eq_replicate_iff.mpr
      refine ⟨by simp, ?_⟩
      intro b hb
      obtain ⟨r, hr, hrb⟩ := List.mem_map.mp hb
      rw [← hrb]; exact hrect r hr
    rw [hmap, List.sum_replicate, smul_eq_mul]
    rfl

theorem flatten_degenerate_preserves_witness :
    flattenIfDegenerate (NpArray.twoD [[EValue.num 3], [EValue.num 4]]) =
      NpArray.oneD [EValue.num 3, EValue.num 4] := by
  have h := flatten_degenerate_preserves [[EValue.num 3], [EValue.num 4]] (Or.inr rfl)
  exact h.1

/-- Claim C8: field selection is deterministic — any two runs of the
procedure on the same product name and the same declared field-name list
select the same field. -/
theorem selectField_deterministic (p1 p2 : String) (fs1 fs2 : List String)
    (hp : p1 = p2) (hf : fs1 = fs2) : selectField p1 fs1 = selectField p2 fs2 := by
  subst hp; subst hf; rfl

theorem selectField_deterministic_witness :
    selectField "regup" ["Time", "Value"] = selectField "regup" ["Time", "Value"] :=
  selectField_deterministic "regup" "regup" ["Time", "Value"] ["Time", "Value"] rfl rfl

/-- Claim C9: on any structured record with a non-empty field list the
selection procedure yields some declared field, so indexing the record by
the selected name is defined (the lookup returns a column) and no error
branch is reached. -/
theorem selectField_total (product : String) (fields : List (String × List EValue))
    (h : fields ≠ []) :
    ∃ f d, selectField product (fields.map Prod.fst) = some f ∧
      alook fields f = some d := by
  have hne : fields.map Prod.fst ≠ [] := by
    intro hc; exact h (List.map_eq_nil_iff.mp hc)
  obtain ⟨f, hsel, hmem⟩ := @selectField_mem product (fields.map Prod.fst) hne
  obtain ⟨d, hd⟩ := alook_of_mem_keys fields f hmem
  exact ⟨f, d, hsel, hd⟩

theorem selectField_total_witness :
    ∃ f d, selectField "regup" ([("Time", [EValue.num 5])].map Prod.fst) = some f ∧
      alook [("Time", [EValue.num 5])] f = some d :=
  selectField_total "regup" [("Time", [EValue.num 5])] (by simp)

/-- Claim C7: after assembly, every product whose stored series is
non-empty gets a diagnostic line reporting exactly the stored series'
length as its observation count and its number of non-NaN entries as its
valid count. -/
theorem returnsDiagnostics_spec (src : String → Source RetFile) (p : String)
    (s : List EValue) (hp : p ∈ products)
    (hs : alook (combine_returns_tables src) p = some s) (hne : s ≠ []) :
    alook (returnsDiagnostics (combine_returns_tables src)) p =
      some (s.length, countValid s) := by
  have h1 := alook_filterMap_self
    (fun q => diagOf (alook (combine_returns_tables src) q)) products p hp
  have hlen : 0 < s.length := List.length_pos.mpr hne
  calc alook (returnsDiagnostics (combine_returns_tables src)) p
      = diagOf (alook (combine_returns_tables src) p) := h1
    _ = diagOf (some s) := by rw [hs]
    _ = some (s.length, countValid s) := by simp [diagOf, hlen]

theorem returnsDiagnostics_spec_witness :
    alook (returnsDiagnostics (combine_returns_tables (fun _ => Source.ok wRetFile)))
      "regup" = some (2, 1) := by
  have h := returnsDiagnostics_spec (fun _ => Source.ok wRetFile) "regup"
    [EValue.num 2, EValue.nan] (by decide) rfl (by simp)
  exact h

/-- Claim C4 counterexample: with declared fields `[Value, regup]` and
product `regup`, the claimed precedence selects the product-named field
`regup`, but the code selects `Value`, the first field that is not
literally `Timestamp` or `Time`. -/
theorem selectField_counterexample :
    selectField "regup" ["Value", "regup"] = some "Value" ∧
    specSelectField "regup" ["Value", "regup"] = some "regup" ∧
    some ("Value" : String) ≠ some ("regup" : String) := by
  refine ⟨by decide, by decide, by decide⟩

/-- Claim C4 (amended): the selector takes the first declared field whose
name contains the product name or differs from both `Timestamp` and
`Time`; when no field qualifies, or the qualifying field's name is empty,
it takes the first field whose lowercased name contains neither `time`
nor `date`, else the first declared field. -/
theorem selectField_amended (product : String) (fields : List String) :
    selectField product fields =
      match fields.find? (fun f => strContains f product ||
          (decide (f ≠ "Timestamp") && decide (f ≠ "Time"))) with
      | some f =>
          if f = "" then
            ((fields.filter (fun f => !(lowerHasTimeOrDate f))).head?).elim
              fields.head? some
          else some f
      | none =>
          ((fields.filter (fun f => !(lowerHasTimeOrDate f))).head?).elim
            fields.head? some := by
  have hfb : fallbackSelect fields =
      ((fields.filter (fun f => !(lowerHasTimeOrDate f))).head?).elim
        fields.head? some := by
    unfold fallbackSelect
    cases fields.filter (fun f => !(lowerHasTimeOrDate f)) with
    | nil => rfl
    | cons g t => rfl
  unfold selectField
  rw [primaryScan_eq_find]
  rw [show (fun f => strContains f product ||
      (decide (f ≠ "Timestamp") && decide (f ≠ "Time"))) = primaryPred product from rfl]
  cases fields.find? (primaryPred product) with
  | none => exact hfb
  | some f =>
    show (if f = "" then fallbackSelect fields else some f) =
      (if f = "" then
        ((fields.filter (fun g => !(lowerHasTimeOrDate g))).head?).elim
          fields.head? some
      else some f)
    by_cases hf : f = ""
    · rw [if_pos hf, if_pos hf]; exact hfb
    · rw [if_neg hf, if_neg hf]

end COREv2
